import Mathlib

/-!
Verification of the proof-of-work / difficulty-retargeting core (`pow.cpp`).

The 256-bit unsigned integer type `arith_uint256` and its compact codec are
modelled over `Nat` (values taken modulo `2^256` where the source wraps);
chain nodes (`CBlockIndex`) are modelled as a head block together with the
list of its ancestors, mirroring the backward `pprev`-linked structure.
The floating-point Kimoto-Gravity-Well deviation test (lines 93-103 of the
source) is abstracted as an oracle parameter: a Boolean function of the
quantities it reads (`PastBlocksMass`, `PastRateActualSeconds`,
`PastRateTargetSeconds`); all control-flow theorems are proved for every
such oracle, in particular for the IEEE-double one of the source.
-/

set_option maxRecDepth 10000

/-- `2^256`, the modulus of `arith_uint256` arithmetic. -/
def two256 : Nat := 2 ^ 256

/-- Reinterpretation of a C `int`/`int64_t` value as `uint64_t`
(the cast `(uint64_t)BlockLastSolved->nHeight`). -/
def u64OfInt (z : Int) : Nat := (z % (2 ^ 64 : Nat)).toNat

/-- Reinterpretation of a `uint64_t` value as `int64_t`
(the assignment of `TargetBlocksSpacingSeconds * PastBlocksMass` to an
`int64_t` variable). -/
def i64OfNat (n : Nat) : Int :=
  let r : Nat := n % 2 ^ 64
  if r < 2 ^ 63 then (r : Int) else (r : Int) - 2 ^ 64

/-- Wrapping 256-bit subtraction, the semantics of `operator-` on
`arith_uint256` (unsigned, wraps on underflow). -/
def sub256 (a b : Nat) : Nat := (a + two256 - b % two256) % two256

/-- Wrapping 256-bit addition, the semantics of `operator+` on
`arith_uint256`. -/
def add256 (a b : Nat) : Nat := (a + b) % two256

/-- Modelled from the spec: bit length of a 256-bit magnitude
(`base_uint::bits()`, not under `src/`); fuel-structured so that it
evaluates by kernel reduction.  Exact for every `n < 2^300`. -/
def bitLen : Nat → Nat → Nat
  | _, 0 => 0
  | 0, _ => 0
  | fuel + 1, n => bitLen fuel (n / 2) + 1

/-- Bit length of a 256-bit magnitude. -/
def natBits (n : Nat) : Nat := bitLen 300 n

/-- Modelled from the spec: compact decode, magnitude part
(`arith_uint256::SetCompact`, not under `src/`): top byte is the exponent,
low 3 bytes the mantissa (sign bit masked off); the left shift wraps at
256 bits. -/
def setCompactValue (nCompact : Nat) : Nat :=
  let nSize := (nCompact % 2 ^ 32) >>> 24
  let nWord := nCompact % 2 ^ 32 &&& 0x007fffff
  if nSize ≤ 3 then nWord >>> (8 * (3 - nSize))
  else (nWord <<< (8 * (nSize - 3))) % two256

/-- Modelled from the spec: compact decode, `negative` flag — sign bit set
and mantissa nonzero. -/
def setCompactNegative (nCompact : Nat) : Bool :=
  let nWord := nCompact % 2 ^ 32 &&& 0x007fffff
  nWord ≠ 0 && nCompact % 2 ^ 32 &&& 0x00800000 ≠ 0

/-- Modelled from the spec: compact decode, `overflow` flag — exponent and
mantissa would need more than 256 bits. -/
def setCompactOverflow (nCompact : Nat) : Bool :=
  let nSize := (nCompact % 2 ^ 32) >>> 24
  let nWord := nCompact % 2 ^ 32 &&& 0x007fffff
  nWord ≠ 0 &&
    (nSize > 34 || (nWord > 0xff && nSize > 33) || (nWord > 0xffff && nSize > 32))

/-- Modelled from the spec: compact encode (`arith_uint256::GetCompact`,
not under `src/`): smallest exponent with a 3-byte mantissa, sign bit kept
clear by bumping the exponent when the mantissa's top bit is set. -/
def getCompact (v : Nat) : Nat :=
  let nSize := (natBits v + 7) / 8
  let nCompact :=
    if nSize ≤ 3 then (v % 2 ^ 64) <<< (8 * (3 - nSize))
    else (v >>> (8 * (nSize - 3))) % 2 ^ 64
  if nCompact &&& 0x00800000 ≠ 0 then
    (nCompact >>> 8) ||| ((nSize + 1) <<< 24)
  else
    nCompact ||| (nSize <<< 24)

/-- The body of `getCompact` with the computed byte size as an explicit
argument (proof decomposition: `getCompact v` is definitionally
`getCompactAt ((natBits v + 7) / 8) v`). -/
def getCompactAt (nSize v : Nat) : Nat :=
  let nCompact :=
    if nSize ≤ 3 then (v % 2 ^ 64) <<< (8 * (3 - nSize))
    else (v >>> (8 * (nSize - 3))) % 2 ^ 64
  if nCompact &&& 0x00800000 ≠ 0 then
    (nCompact >>> 8) ||| ((nSize + 1) <<< 24)
  else
    nCompact ||| (nSize <<< 24)

/-- The consensus parameters read by the proof-of-work core
(`Consensus::Params`).  `powLimit` is a 256-bit magnitude. -/
structure ConsensusParams where
  powLimit : Nat
  nPowTargetTimespan : Int
  fPowAllowMinDifficultyBlocks : Bool
  fPowNoRetargeting : Bool
deriving Repr, DecidableEq

/-- `CheckProofOfWork` (pow.cpp lines 15-32): decode `nBits`, reject on
`negative`, zero target, `overflow`, target above `powLimit`, or hash above
target. -/
def CheckProofOfWork (hash : Nat) (nBits : Nat) (params : ConsensusParams) : Bool :=
  let bnTarget := setCompactValue nBits
  if setCompactNegative nBits || bnTarget == 0 || setCompactOverflow nBits
      || bnTarget > params.powLimit then false
  else if hash > bnTarget then false
  else true

/-- Mainnet consensus parameters (chainparams.cpp lines 72-77), used as
concrete instances in witnesses. -/
def mainParams : ConsensusParams :=
  { powLimit := 0x00000fffffffffffffffffffffffffffffffffffffffffffffffffffffffffff
    nPowTargetTimespan := 4 * 60 * 60
    fPowAllowMinDifficultyBlocks := false
    fPowNoRetargeting := false }

/-- A chain node (`CBlockIndex`) as read by the retargeting core: height
(C `int`), block time (`nTime`, `uint32_t`), and compact target bits.  The
`pprev` back-link is represented by pairing a head block with the list of
its ancestors; `pprev == NULL` corresponds to an empty ancestor list. -/
structure Blk where
  nHeight : Int
  nTime : Nat
  nBits : Nat
deriving Repr, DecidableEq

/-- The candidate block header argument (`CBlockHeader *pblock`); the
retargeting code receives it but never reads it. -/
structure HeaderArg where
  nTime : Nat
  nBits : Nat
deriving Repr, DecidableEq

/-- `CalculateNextWorkRequired_V1` (pow.cpp lines 34-57): legacy
fixed-window retarget.  The `arith_uint256` multiply and divide are
modelled from the spec (§4.1): exact on the magnitude, no silent wrap
(`arith_uint256.cpp` is not under `src/`). -/
def CalculateNextWorkRequired_V1 (pindexLast : Blk) (nFirstBlockTime : Int)
    (params : ConsensusParams) : Nat :=
  if params.fPowNoRetargeting then pindexLast.nBits
  else
    let nActualTimespan0 : Int := (pindexLast.nTime : Int) - nFirstBlockTime
    let nActualTimespan1 : Int :=
      if nActualTimespan0 < params.nPowTargetTimespan / 4 then params.nPowTargetTimespan / 4
      else nActualTimespan0
    let nActualTimespan : Int :=
      if nActualTimespan1 > params.nPowTargetTimespan * 4 then params.nPowTargetTimespan * 4
      else nActualTimespan1
    let bnNew0 : Nat :=
      setCompactValue pindexLast.nBits * nActualTimespan.toNat / params.nPowTargetTimespan.toNat
    let bnNew : Nat := if bnNew0 > params.powLimit then params.powLimit else bnNew0
    getCompact bnNew

/-- `CalculateNextWorkRequired` (pow.cpp lines 161-164): thin wrapper over
the V1 algorithm kept for test compatibility. -/
def CalculateNextWorkRequired (pindexLast : Blk) (nFirstBlockTime : Int)
    (params : ConsensusParams) : Nat :=
  CalculateNextWorkRequired_V1 pindexLast nFirstBlockTime params

/-- The loop-carried variables of the Kimoto-Gravity-Well walk:
`PastBlocksMass` (`uint64_t`), `PastDifficultyAverage` (`arith_uint256`;
`PastDifficultyAveragePrev` equals it after every completed iteration),
`PastRateActualSeconds` and `PastRateTargetSeconds` (`int64_t`). -/
structure KGWState where
  mass : Nat
  avg : Nat
  actual : Int
  target : Int
deriving Repr, DecidableEq

/-- The C `assert(e)` statement: evaluates the condition and continues with
the given value when it holds, aborts otherwise. -/
def cassert (b : Bool) (x : α) : Option α := if b then some x else none

/-- Abstraction of the IEEE-double deviation test of pow.cpp lines 93-103:
given `PastBlocksMass`, the clamped `PastRateActualSeconds` and
`PastRateTargetSeconds`, decide
`PastRateAdjustmentRatio <= EventHorizonDeviationSlow ||
 PastRateAdjustmentRatio >= EventHorizonDeviationFast`, where the ratio is
`1.0` when either operand is zero and the envelope is
`1 + 0.7084 * (mass/28.2)^(-1.228)`.  The doubles are not modelled bit-for-
bit; every control-flow theorem below holds for an arbitrary such test. -/
def KGWRatioTest : Type := Nat → Int → Int → Bool

/-- The incremental average update of iterations `i > 1` (pow.cpp lines
84-87): branch on `decode(bits) >= previousAverage` before subtracting,
divide the difference by `i`, then add or subtract it back. -/
def avgUpdate (i : Nat) (d prev : Nat) : Nat :=
  if prev ≤ d then add256 (sub256 d prev / i) prev
  else sub256 prev (sub256 prev d / i)

/-- The loop-body assignments of one iteration of the backward walk
(pow.cpp lines 80-96): increment `PastBlocksMass`, set or update
`PastDifficultyAverage`, recompute `PastRateActualSeconds` (clamped to be
non-negative) and `PastRateTargetSeconds`. -/
def kgwNextState (spacing : Nat) (lastTime : Int) (blk : Blk) (i : Nat)
    (st : KGWState) : KGWState :=
  { mass := st.mass + 1
    avg :=
      if i = 1 then setCompactValue blk.nBits
      else avgUpdate i (setCompactValue blk.nBits) st.avg
    actual :=
      if lastTime - (blk.nTime : Int) < 0 then 0 else lastTime - (blk.nTime : Int)
    target := i64OfNat (spacing * (st.mass + 1)) }

/-- One pass of the backward walk of `KimotoGravityWell` (pow.cpp lines
78-107) starting from a non-null `BlockReading` pointer, given as head
block and ancestor list.  `lastTime` is `BlockLastSolved->GetBlockTime()`;
`i` is the `unsigned int` loop counter; the result is `none` exactly when
a C `assert` would abort (the asserted condition is that the `BlockReading`
pointer, `some (blk, rest)` here, is non-null). -/
def kgwLoopGo (tr : KGWRatioTest) (spacing minW maxW : Nat) (lastTime : Int) :
    Blk → List Blk → Nat → KGWState → Option KGWState
  | blk, rest, i, st =>
    if blk.nHeight ≤ 0 then some st
    else if 0 < maxW ∧ maxW < i then some st
    else if (kgwNextState spacing lastTime blk i st).mass ≥ minW ∧
        tr (kgwNextState spacing lastTime blk i st).mass
          (kgwNextState spacing lastTime blk i st).actual
          (kgwNextState spacing lastTime blk i st).target then
      cassert (some (blk, rest) : Option (Blk × List Blk)).isSome
        (kgwNextState spacing lastTime blk i st)
    else
      match rest with
      | [] =>
        cassert (some (blk, rest) : Option (Blk × List Blk)).isSome
          (kgwNextState spacing lastTime blk i st)
      | p :: rest2 =>
        kgwLoopGo tr spacing minW maxW lastTime p rest2 (i + 1)
          (kgwNextState spacing lastTime blk i st)

/-- The backward walk of `KimotoGravityWell` on the `BlockReading` pointer
(`none` = `NULL`; the for-condition exits the loop on a null pointer). -/
def kgwLoop (tr : KGWRatioTest) (spacing minW maxW : Nat) (lastTime : Int)
    (reading : Option (Blk × List Blk)) (i : Nat) (st : KGWState) : Option KGWState :=
  match reading with
  | none => some st
  | some (blk, rest) => kgwLoopGo tr spacing minW maxW lastTime blk rest i st

/-- `KimotoGravityWell` (pow.cpp lines 59-127).  `pindexLast` is the
`BlockLastSolved` pointer; the `pblock` header argument is received but
never read.  The post-loop multiply/divide are modelled from the spec
(§4.1): exact on the magnitude (`arith_uint256.cpp` is not under `src/`),
with the `int64_t` operands converted through their `uint64_t` patterns. -/
def KimotoGravityWell (tr : KGWRatioTest) (pindexLast : Option (Blk × List Blk))
    (pblock : Option HeaderArg)
    (TargetBlocksSpacingSeconds PastBlocksMin PastBlocksMax : Nat)
    (params : ConsensusParams) : Option Nat :=
  let bnPowLimit := params.powLimit
  match pindexLast with
  | none => some (getCompact bnPowLimit)
  | some (tip, rest) =>
    if tip.nHeight = 0 ∨ u64OfInt tip.nHeight < PastBlocksMin then
      some (getCompact bnPowLimit)
    else
      match kgwLoop tr TargetBlocksSpacingSeconds PastBlocksMin PastBlocksMax
          (tip.nTime : Int) (some (tip, rest)) 1 ⟨0, 0, 0, 0⟩ with
      | none => none
      | some st =>
        let bnNew0 := st.avg
        let bnNew1 :=
          if st.actual ≠ 0 ∧ st.target ≠ 0 then
            bnNew0 * u64OfInt st.actual / u64OfInt st.target
          else bnNew0
        some (getCompact (if bnNew1 > bnPowLimit then bnPowLimit else bnNew1))

/-- The fixed bootstrap target of the dispatcher (pow.cpp line 134). -/
def bnStartDifficulty : Nat :=
  0x0000001fffffffffffffffffffffffffffffffffffffffffffffffffffffffff

/-- `BlocksTargetSpacing` (pow.cpp line 148): 79 seconds. -/
def BlocksTargetSpacing : Nat := 79

/-- `PastBlocksMin` of the dispatcher (pow.cpp lines 149-152).  The double
expression `86400 * (79.0/60.0) * 0.1` evaluates to exactly `11376.0` in
IEEE-754 double arithmetic, so the `int64_t` truncation gives 11376 and
`11376 / 79 = 144`. -/
def dispatcherPastBlocksMin : Nat := 11376 / BlocksTargetSpacing

/-- `PastBlocksMax` of the dispatcher (pow.cpp lines 151-153).  The double
expression `86400 * (79.0/60.0) * 2.8` evaluates to exactly `318528.0` in
IEEE-754 double arithmetic, so the truncation gives 318528 and
`318528 / 79 = 4032`. -/
def dispatcherPastBlocksMax : Nat := 318528 / BlocksTargetSpacing

/-- `GetNextWorkRequired` (pow.cpp lines 129-156): fixed compact target at
height 160, Kimoto Gravity Well with the fixed window constants
otherwise.  The tip pointer is dereferenced unconditionally in the source,
so it is taken non-null here. -/
def GetNextWorkRequired (tr : KGWRatioTest) (pindexLast : Blk × List Blk)
    (pblock : Option HeaderArg) (params : ConsensusParams) : Option Nat :=
  if pindexLast.1.nHeight = 160 then some (getCompact bnStartDifficulty)
  else
    KimotoGravityWell tr (some pindexLast) pblock BlocksTargetSpacing
      dispatcherPastBlocksMin dispatcherPastBlocksMax params

/-- Unfolding of `bitLen` at a positive argument. -/
theorem bitLen_succ (f n : Nat) : bitLen (f + 1) (n + 1) = bitLen f ((n + 1) / 2) + 1 := rfl

/-- `bitLen` of zero. -/
theorem bitLen_zero (f : Nat) : bitLen f 0 = 0 := by cases f <;> rfl

/-- `bitLen` is bounded by any exponent dominating its argument. -/
theorem bitLen_le (f : Nat) : ∀ n j, n < 2 ^ j → bitLen f n ≤ j := by
  induction f with
  | zero =>
    intro n j _
    cases n with
    | zero => simp [bitLen_zero]
    | succ m => exact Nat.zero_le j
  | succ f ih =>
    intro n j h
    cases n with
    | zero => simp [bitLen_zero]
    | succ m =>
      rw [bitLen_succ]
      cases j with
      | zero => omega
      | succ j =>
        have h2 : (m + 1) / 2 < 2 ^ j := by
          rw [pow_succ] at h
          omega
        have := ih ((m + 1) / 2) j h2
        omega

/-- Any number below `2^f` is below `2` to its `bitLen`. -/
theorem lt_two_pow_bitLen (f : Nat) : ∀ n, n < 2 ^ f → n < 2 ^ bitLen f n := by
  induction f with
  | zero =>
    intro n h
    have hn : n = 0 := by omega
    subst hn
    simp [bitLen_zero]
  | succ f ih =>
    intro n h
    cases n with
    | zero => simp [bitLen_zero]
    | succ m =>
      rw [bitLen_succ]
      have h2 : (m + 1) / 2 < 2 ^ f := by
        rw [pow_succ] at h
        omega
      have ih2 := ih ((m + 1) / 2) h2
      rw [pow_succ]
      omega

/-- Right shift distributes over bitwise or. -/
theorem orShiftRight (a b k : Nat) : (a ||| b) >>> k = (a >>> k) ||| (b >>> k) := by
  apply Nat.eq_of_testBit_eq
  intro j
  simp [Nat.testBit_shiftRight, Nat.testBit_or]

/-- A mantissa-exponent pack is below `2^32` when the mantissa is below
`2^24` and the exponent byte below `2^8`. -/
theorem pack_lt (s m : Nat) (hm : m < 2 ^ 24) (hs : s < 2 ^ 8) :
    m ||| (s <<< 24) < 2 ^ 32 := by
  apply Nat.or_lt_two_pow
  · omega
  · rw [Nat.shiftLeft_eq]
    have : s + 1 ≤ 2 ^ 8 := hs
    calc s * 2 ^ 24 < (s + 1) * 2 ^ 24 := by omega
      _ ≤ 2 ^ 8 * 2 ^ 24 := Nat.mul_le_mul_right _ hs
      _ = 2 ^ 32 := by norm_num

/-- Extracting the exponent byte from a pack. -/
theorem pack_shiftRight (s m : Nat) (hm : m < 2 ^ 24) :
    (m ||| (s <<< 24)) >>> 24 = s := by
  rw [orShiftRight]
  have h1 : m >>> 24 = 0 := by
    rw [Nat.shiftRight_eq_div_pow]
    exact Nat.div_eq_of_lt hm
  rw [h1, Nat.shiftLeft_shiftRight, Nat.zero_or]

/-- Extracting the mantissa (sign bit masked off) from a pack whose
mantissa has a clear sign bit. -/
theorem pack_mask (s m : Nat) (hm : m < 2 ^ 23) :
    (m ||| (s <<< 24)) &&& 0x007fffff = m := by
  have hmask : (0x007fffff : Nat) = 2 ^ 23 - 1 := by norm_num
  rw [hmask, Nat.and_distrib_right]
  have h1 : m &&& (2 ^ 23 - 1) = m := by
    rw [Nat.and_pow_two_sub_one_eq_mod]
    exact Nat.mod_eq_of_lt hm
  have h2 : (s <<< 24) &&& (2 ^ 23 - 1) = 0 := by
    rw [Nat.and_pow_two_sub_one_eq_mod, Nat.shiftLeft_eq]
    have : s * 2 ^ 24 = s * 2 * 2 ^ 23 := by ring
    rw [this]
    exact Nat.mul_mod_left _ _
  rw [h1, h2, Nat.or_zero]

/-- The sign-bit test of the compact codec on a 24-bit mantissa candidate:
bit 23 clear means below `2^23`, set means at least `2^23`. -/
theorem sign_bit_cases (c : Nat) (hc : c < 2 ^ 24) :
    (c &&& 0x00800000 = 0 ∧ c < 2 ^ 23) ∨ (c &&& 0x00800000 ≠ 0 ∧ 2 ^ 23 ≤ c) := by
  have hm : (0x00800000 : Nat) = 2 ^ 23 := by norm_num
  have ht : c.testBit 23 = decide (c / 2 ^ 23 % 2 = 1) := Nat.testBit_to_div_mod
  rw [hm, Nat.and_two_pow]
  cases hb : c.testBit 23 with
  | false =>
    left
    rw [ht] at hb
    have hd : ¬(c / 2 ^ 23 % 2 = 1) := by simpa using hb
    simp only [Bool.toNat_false]
    omega
  | true =>
    right
    rw [ht] at hb
    have hd : c / 2 ^ 23 % 2 = 1 := by simpa using hb
    simp only [Bool.toNat_true]
    omega

theorem getCompact_eq_at (v : Nat) : getCompact v = getCompactAt ((natBits v + 7) / 8) v := rfl

/-- Decoding the compact form produced for an in-range magnitude never
exceeds the magnitude (the encoding truncates low bits), for any byte size
`S` dominating the magnitude. -/
theorem decode_getCompactAt_le (S v : Nat) (hv8S : v < 2 ^ (8 * S)) (hS32 : S ≤ 32) :
    setCompactValue (getCompactAt S v) ≤ v := by
  by_cases hS3 : S ≤ 3
  · have hv24 : v < 2 ^ 24 :=
      lt_of_lt_of_le hv8S (Nat.pow_le_pow_right (by norm_num) (by omega))
    have hv64 : v % 2 ^ 64 = v := Nat.mod_eq_of_lt (by omega)
    have hc0eq : (v % 2 ^ 64) <<< (8 * (3 - S)) = v * 2 ^ (8 * (3 - S)) := by
      rw [hv64, Nat.shiftLeft_eq]
    have hpow : 2 ^ (8 * S) * 2 ^ (8 * (3 - S)) = 2 ^ 24 := by
      rw [← pow_add]
      congr 1
      omega
    have hc0lt : v * 2 ^ (8 * (3 - S)) < 2 ^ 24 := by
      calc v * 2 ^ (8 * (3 - S)) < 2 ^ (8 * S) * 2 ^ (8 * (3 - S)) :=
            mul_lt_mul_of_pos_right hv8S (Nat.pos_pow_of_pos _ (by norm_num))
        _ = 2 ^ 24 := hpow
    simp only [getCompactAt, hS3, if_true, hc0eq]
    rcases sign_bit_cases _ hc0lt with ⟨hz, hlt23⟩ | ⟨hnz, hge23⟩
    · rw [if_neg (by simpa using hz)]
      have hmod32 : (v * 2 ^ (8 * (3 - S)) ||| (S <<< 24)) % 2 ^ 32 =
          v * 2 ^ (8 * (3 - S)) ||| (S <<< 24) :=
        Nat.mod_eq_of_lt (pack_lt S _ hc0lt (by omega))
      have hsr : (v * 2 ^ (8 * (3 - S)) ||| (S <<< 24)) >>> 24 = S :=
        pack_shiftRight S _ hc0lt
      have hmask : (v * 2 ^ (8 * (3 - S)) ||| (S <<< 24)) &&& 0x007fffff =
          v * 2 ^ (8 * (3 - S)) :=
        pack_mask S _ hlt23
      simp only [setCompactValue, hmod32, hsr, hmask, hS3, if_true]
      rw [← Nat.shiftLeft_eq, Nat.shiftLeft_shiftRight]
    · rw [if_pos hnz]
      have h8 : (v * 2 ^ (8 * (3 - S))) >>> 8 < 2 ^ 16 := by
        rw [Nat.shiftRight_eq_div_pow]
        omega
      have hmod32 : (((v * 2 ^ (8 * (3 - S))) >>> 8) ||| ((S + 1) <<< 24)) % 2 ^ 32 =
          ((v * 2 ^ (8 * (3 - S))) >>> 8) ||| ((S + 1) <<< 24) :=
        Nat.mod_eq_of_lt (pack_lt (S + 1) _ (by omega) (by omega))
      have hsr : (((v * 2 ^ (8 * (3 - S))) >>> 8) ||| ((S + 1) <<< 24)) >>> 24 = S + 1 :=
        pack_shiftRight (S + 1) _ (by omega)
      have hmask : (((v * 2 ^ (8 * (3 - S))) >>> 8) ||| ((S + 1) <<< 24)) &&& 0x007fffff =
          (v * 2 ^ (8 * (3 - S))) >>> 8 :=
        pack_mask (S + 1) _ (by omega)
      simp only [setCompactValue, hmod32, hsr, hmask]
      by_cases hS2 : S + 1 ≤ 3
      · rw [if_pos hS2, ← Nat.shiftRight_add]
        have harg : 8 + 8 * (3 - (S + 1)) = 8 * (3 - S) := by omega
        rw [harg, ← Nat.shiftLeft_eq, Nat.shiftLeft_shiftRight]
      · rw [if_neg hS2]
        have hSe : S = 3 := by omega
        subst hSe
        norm_num
        calc (v >>> 8) <<< 8 % two256 ≤ (v >>> 8) <<< 8 := Nat.mod_le _ _
          _ ≤ v := by
            rw [Nat.shiftLeft_eq, Nat.shiftRight_eq_div_pow]
            exact Nat.div_mul_le_self _ _
  · have hm24 : v >>> (8 * (S - 3)) < 2 ^ 24 := by
      rw [Nat.shiftRight_eq_div_pow]
      apply Nat.div_lt_of_lt_mul
      calc v < 2 ^ (8 * S) := hv8S
        _ = 2 ^ (8 * (S - 3)) * 2 ^ 24 := by
          rw [← pow_add]
          congr 1
          omega
    have hv64m : v >>> (8 * (S - 3)) % 2 ^ 64 = v >>> (8 * (S - 3)) :=
      Nat.mod_eq_of_lt (by omega)
    simp only [getCompactAt, hS3, if_false, hv64m]
    rcases sign_bit_cases _ hm24 with ⟨hz, hlt23⟩ | ⟨hnz, hge23⟩
    · rw [if_neg (by simpa using hz)]
      have hmod32 : ((v >>> (8 * (S - 3))) ||| (S <<< 24)) % 2 ^ 32 =
          (v >>> (8 * (S - 3))) ||| (S <<< 24) :=
        Nat.mod_eq_of_lt (pack_lt S _ hm24 (by omega))
      have hsr : ((v >>> (8 * (S - 3))) ||| (S <<< 24)) >>> 24 = S :=
        pack_shiftRight S _ hm24
      have hmask : ((v >>> (8 * (S - 3))) ||| (S <<< 24)) &&& 0x007fffff =
          v >>> (8 * (S - 3)) :=
        pack_mask S _ hlt23
      simp only [setCompactValue, hmod32, hsr, hmask, hS3, if_false]
      calc (v >>> (8 * (S - 3))) <<< (8 * (S - 3)) % two256
          ≤ (v >>> (8 * (S - 3))) <<< (8 * (S - 3)) := Nat.mod_le _ _
        _ ≤ v := by
          rw [Nat.shiftLeft_eq, Nat.shiftRight_eq_div_pow]
          exact Nat.div_mul_le_self _ _
    · rw [if_pos hnz]
      have h8 : (v >>> (8 * (S - 3))) >>> 8 < 2 ^ 16 := by
        rw [Nat.shiftRight_eq_div_pow (v >>> (8 * (S - 3)))]
        omega
      have hmod32 : (((v >>> (8 * (S - 3))) >>> 8) ||| ((S + 1) <<< 24)) % 2 ^ 32 =
          ((v >>> (8 * (S - 3))) >>> 8) ||| ((S + 1) <<< 24) :=
        Nat.mod_eq_of_lt (pack_lt (S + 1) _ (by omega) (by omega))
      have hsr : (((v >>> (8 * (S - 3))) >>> 8) ||| ((S + 1) <<< 24)) >>> 24 = S + 1 :=
        pack_shiftRight (S + 1) _ (by omega)
      have hmask : (((v >>> (8 * (S - 3))) >>> 8) ||| ((S + 1) <<< 24)) &&& 0x007fffff =
          (v >>> (8 * (S - 3))) >>> 8 :=
        pack_mask (S + 1) _ (by omega)
      simp only [setCompactValue, hmod32, hsr, hmask]
      rw [if_neg (by omega), ← Nat.shiftRight_add]
      have harg : 8 * (S - 3) + 8 = 8 * (S + 1 - 3) := by omega
      rw [harg]
      calc (v >>> (8 * (S + 1 - 3))) <<< (8 * (S + 1 - 3)) % two256
          ≤ (v >>> (8 * (S + 1 - 3))) <<< (8 * (S + 1 - 3)) := Nat.mod_le _ _
        _ ≤ v := by
          rw [Nat.shiftLeft_eq, Nat.shiftRight_eq_div_pow]
          exact Nat.div_mul_le_self _ _

/-- Compact encoding truncates: decoding the encoding of an in-range
magnitude never exceeds the magnitude. -/
theorem setCompactValue_getCompact_le (v : Nat) (hv : v < two256) :
    setCompactValue (getCompact v) ≤ v := by
  rw [getCompact_eq_at]
  have hv300 : v < 2 ^ 300 := lt_of_lt_of_le hv (by unfold two256; norm_num)
  have hB : v < 2 ^ natBits v := lt_two_pow_bitLen 300 v hv300
  have hB256 : natBits v ≤ 256 := bitLen_le 300 v 256 (by unfold two256 at hv; exact hv)
  apply decode_getCompactAt_le
  · exact lt_of_lt_of_le hB (Nat.pow_le_pow_right (by norm_num) (by omega))
  · omega

/-- The clamp-to-limit pattern `if x > y then y else x` is `min y x`. -/
theorem ifGtMin (x y : Nat) : (if x > y then y else x) = min y x := by
  by_cases h : x > y
  · simp only [h, if_true]
    omega
  · simp only [h, if_false]
    omega

/-- A wrapping 256-bit subtraction with its minuend at least its subtrahend
(both in range) computes the exact difference. -/
theorem sub256_exact (a b : Nat) (hb : b ≤ a) (ha : a < two256) : sub256 a b = a - b := by
  unfold sub256 two256 at *
  have hbm : b % 2 ^ 256 = b := Nat.mod_eq_of_lt (lt_of_le_of_lt hb ha)
  rw [hbm]
  have h1 : a + 2 ^ 256 - b = (a - b) + 2 ^ 256 := by omega
  rw [h1, Nat.add_mod_right]
  exact Nat.mod_eq_of_lt (by omega)

/-- The walk never aborts: every branch of its body produces `some`, the
asserted pointer being non-null by construction. -/
theorem kgwLoopGo_isSome (tr : KGWRatioTest) (spacing minW maxW : Nat) (lastTime : Int)
    (rest : List Blk) : ∀ (blk : Blk) (i : Nat) (st : KGWState),
    (kgwLoopGo tr spacing minW maxW lastTime blk rest i st).isSome = true := by
  induction rest with
  | nil =>
    intro blk i st
    rw [kgwLoopGo]
    by_cases h1 : blk.nHeight ≤ 0
    · rw [if_pos h1]; rfl
    rw [if_neg h1]
    by_cases h2 : 0 < maxW ∧ maxW < i
    · rw [if_pos h2]; rfl
    rw [if_neg h2]
    by_cases h3 : (kgwNextState spacing lastTime blk i st).mass ≥ minW ∧
        tr (kgwNextState spacing lastTime blk i st).mass
          (kgwNextState spacing lastTime blk i st).actual
          (kgwNextState spacing lastTime blk i st).target = true
    · rw [if_pos h3]; rfl
    rw [if_neg h3]
    rfl
  | cons p rest2 ih =>
    intro blk i st
    rw [kgwLoopGo]
    by_cases h1 : blk.nHeight ≤ 0
    · rw [if_pos h1]; rfl
    rw [if_neg h1]
    by_cases h2 : 0 < maxW ∧ maxW < i
    · rw [if_pos h2]; rfl
    rw [if_neg h2]
    by_cases h3 : (kgwNextState spacing lastTime blk i st).mass ≥ minW ∧
        tr (kgwNextState spacing lastTime blk i st).mass
          (kgwNextState spacing lastTime blk i st).actual
          (kgwNextState spacing lastTime blk i st).target = true
    · rw [if_pos h3]; rfl
    rw [if_neg h3]
    exact ih p (i + 1) _

/-- Mass bound for the walk: when `maxW > 0`, starting at counter `i` the
walk adds at most `maxW + 1 - i` further samples. -/
theorem kgwLoopGo_mass_le (tr : KGWRatioTest) (spacing minW maxW : Nat) (lastTime : Int)
    (rest : List Blk) : ∀ (blk : Blk) (i : Nat) (st st' : KGWState),
    0 < maxW →
    kgwLoopGo tr spacing minW maxW lastTime blk rest i st = some st' →
    st'.mass ≤ st.mass + (maxW + 1 - i) := by
  induction rest with
  | nil =>
    intro blk i st st' hmax hrun
    rw [kgwLoopGo] at hrun
    by_cases h1 : blk.nHeight ≤ 0
    · rw [if_pos h1] at hrun
      cases hrun
      omega
    rw [if_neg h1] at hrun
    by_cases h2 : 0 < maxW ∧ maxW < i
    · rw [if_pos h2] at hrun
      cases hrun
      omega
    rw [if_neg h2] at hrun
    have hi : i ≤ maxW := by omega
    by_cases h3 : (kgwNextState spacing lastTime blk i st).mass ≥ minW ∧
        tr (kgwNextState spacing lastTime blk i st).mass
          (kgwNextState spacing lastTime blk i st).actual
          (kgwNextState spacing lastTime blk i st).target = true
    · rw [if_pos h3] at hrun
      simp only [cassert, Option.isSome_some, if_true, Option.some.injEq] at hrun
      subst hrun
      simp only [kgwNextState]
      omega
    · rw [if_neg h3] at hrun
      simp only [cassert, Option.isSome_some, if_true, Option.some.injEq] at hrun
      subst hrun
      simp only [kgwNextState]
      omega
  | cons p rest2 ih =>
    intro blk i st st' hmax hrun
    rw [kgwLoopGo] at hrun
    by_cases h1 : blk.nHeight ≤ 0
    · rw [if_pos h1] at hrun
      cases hrun
      omega
    rw [if_neg h1] at hrun
    by_cases h2 : 0 < maxW ∧ maxW < i
    · rw [if_pos h2] at hrun
      cases hrun
      omega
    rw [if_neg h2] at hrun
    have hi : i ≤ maxW := by omega
    by_cases h3 : (kgwNextState spacing lastTime blk i st).mass ≥ minW ∧
        tr (kgwNextState spacing lastTime blk i st).mass
          (kgwNextState spacing lastTime blk i st).actual
          (kgwNextState spacing lastTime blk i st).target = true
    · rw [if_pos h3] at hrun
      simp only [cassert, Option.isSome_some, if_true, Option.some.injEq] at hrun
      subst hrun
      simp only [kgwNextState]
      omega
    · rw [if_neg h3] at hrun
      have hrec := ih p (i + 1) (kgwNextState spacing lastTime blk i st) st' hmax hrun
      simp only [kgwNextState] at hrec
      omega

/-- **C1.** `CheckProofOfWork` accepts iff the decode of `nBits` is
non-negative, non-overflowing, yields a target `t` with `0 < t ≤ powLimit`,
and the hash is at most `t`; in every other case it rejects. -/
theorem checkProofOfWork_iff (hash nBits : Nat) (params : ConsensusParams) :
    CheckProofOfWork hash nBits params = true ↔
      (setCompactNegative nBits = false ∧ setCompactOverflow nBits = false ∧
        0 < setCompactValue nBits ∧ setCompactValue nBits ≤ params.powLimit ∧
        hash ≤ setCompactValue nBits) := by
  unfold CheckProofOfWork
  by_cases hneg : setCompactNegative nBits
  · simp [hneg]
  · by_cases hovf : setCompactOverflow nBits
    · simp [hneg, hovf]
    · simp only [hneg, hovf, Bool.false_or, Bool.or_eq_true, beq_iff_eq, decide_eq_true_eq]
      by_cases h0 : setCompactValue nBits = 0
      · simp [h0]
      · by_cases hlim : setCompactValue nBits > params.powLimit
        · simp [h0, hlim]
        · by_cases hh : hash > setCompactValue nBits
          · simp [h0, hlim, hh]; try omega
          · simp [h0, hlim, hh]; try omega

/-- **C7.** The legacy retargeter returns `tip.nBits` unchanged under
`fPowNoRetargeting`; otherwise it returns the compact encoding of
`min(powLimit, decode(tip.nBits) * clampedTimespan / nPowTargetTimespan)`
where `clampedTimespan` clamps `tip.nTime - nFirstBlockTime` into
`[timespan/4, timespan*4]`; the clamped timespan stays in that bracket, the
value encoded never exceeds `powLimit`, and the decode of the returned bits
never exceeds `powLimit` either. -/
theorem calculateNextWorkRequired_V1_spec (pindexLast : Blk) (nFirstBlockTime : Int)
    (params : ConsensusParams) (hts : 0 < params.nPowTargetTimespan)
    (hpl : params.powLimit < two256) :
    (params.fPowNoRetargeting = true →
        CalculateNextWorkRequired_V1 pindexLast nFirstBlockTime params = pindexLast.nBits) ∧
    (params.fPowNoRetargeting = false →
      CalculateNextWorkRequired_V1 pindexLast nFirstBlockTime params =
        getCompact (min params.powLimit
          (setCompactValue pindexLast.nBits *
            (min (params.nPowTargetTimespan * 4)
              (max (params.nPowTargetTimespan / 4)
                ((pindexLast.nTime : Int) - nFirstBlockTime))).toNat /
              params.nPowTargetTimespan.toNat)) ∧
      params.nPowTargetTimespan / 4 ≤
        min (params.nPowTargetTimespan * 4)
          (max (params.nPowTargetTimespan / 4) ((pindexLast.nTime : Int) - nFirstBlockTime)) ∧
      min (params.nPowTargetTimespan * 4)
          (max (params.nPowTargetTimespan / 4) ((pindexLast.nTime : Int) - nFirstBlockTime)) ≤
        params.nPowTargetTimespan * 4 ∧
      min params.powLimit
          (setCompactValue pindexLast.nBits *
            (min (params.nPowTargetTimespan * 4)
              (max (params.nPowTargetTimespan / 4)
                ((pindexLast.nTime : Int) - nFirstBlockTime))).toNat /
              params.nPowTargetTimespan.toNat) ≤ params.powLimit ∧
      setCompactValue (CalculateNextWorkRequired_V1 pindexLast nFirstBlockTime params) ≤
        params.powLimit) := by
  constructor
  · intro hnr
    simp [CalculateNextWorkRequired_V1, hnr]
  · intro hnr
    have heq : CalculateNextWorkRequired_V1 pindexLast nFirstBlockTime params =
        getCompact (min params.powLimit
          (setCompactValue pindexLast.nBits *
            (min (params.nPowTargetTimespan * 4)
              (max (params.nPowTargetTimespan / 4)
                ((pindexLast.nTime : Int) - nFirstBlockTime))).toNat /
              params.nPowTargetTimespan.toNat)) := by
      simp only [CalculateNextWorkRequired_V1, hnr, Bool.false_eq_true, if_false]
      have hclamp :
          (if (if (pindexLast.nTime : Int) - nFirstBlockTime < params.nPowTargetTimespan / 4
                then params.nPowTargetTimespan / 4
                else (pindexLast.nTime : Int) - nFirstBlockTime) > params.nPowTargetTimespan * 4
            then params.nPowTargetTimespan * 4
            else if (pindexLast.nTime : Int) - nFirstBlockTime < params.nPowTargetTimespan / 4
                then params.nPowTargetTimespan / 4
                else (pindexLast.nTime : Int) - nFirstBlockTime) =
          min (params.nPowTargetTimespan * 4)
            (max (params.nPowTargetTimespan / 4) ((pindexLast.nTime : Int) - nFirstBlockTime)) := by
        omega
      rw [hclamp]
      congr 1
      exact ifGtMin _ _
    refine ⟨heq, by omega, by omega, Nat.min_le_left _ _, ?_⟩
    rw [heq]
    have hres : min params.powLimit
        (setCompactValue pindexLast.nBits *
          (min (params.nPowTargetTimespan * 4)
            (max (params.nPowTargetTimespan / 4)
              ((pindexLast.nTime : Int) - nFirstBlockTime))).toNat /
            params.nPowTargetTimespan.toNat) ≤ params.powLimit := Nat.min_le_left _ _
    exact le_trans (setCompactValue_getCompact_le _ (lt_of_le_of_lt hres hpl)) hres

/-- Witness for C7 at a concrete input: mainnet parameters, a tip whose
window lasted exactly one quarter of the target timespan. -/
theorem calculateNextWorkRequired_V1_spec_witness :
    0 < mainParams.nPowTargetTimespan ∧ mainParams.powLimit < two256 ∧
    (mainParams.fPowNoRetargeting = true →
        CalculateNextWorkRequired_V1 ⟨161, 10000, 0x1d1fffff⟩ 6400 mainParams =
          (⟨161, 10000, 0x1d1fffff⟩ : Blk).nBits) ∧
    (mainParams.fPowNoRetargeting = false →
      CalculateNextWorkRequired_V1 ⟨161, 10000, 0x1d1fffff⟩ 6400 mainParams =
        getCompact (min mainParams.powLimit
          (setCompactValue (⟨161, 10000, 0x1d1fffff⟩ : Blk).nBits *
            (min (mainParams.nPowTargetTimespan * 4)
              (max (mainParams.nPowTargetTimespan / 4)
                (((⟨161, 10000, 0x1d1fffff⟩ : Blk).nTime : Int) - 6400))).toNat /
              mainParams.nPowTargetTimespan.toNat)) ∧
      mainParams.nPowTargetTimespan / 4 ≤
        min (mainParams.nPowTargetTimespan * 4)
          (max (mainParams.nPowTargetTimespan / 4)
            (((⟨161, 10000, 0x1d1fffff⟩ : Blk).nTime : Int) - 6400)) ∧
      min (mainParams.nPowTargetTimespan * 4)
          (max (mainParams.nPowTargetTimespan / 4)
            (((⟨161, 10000, 0x1d1fffff⟩ : Blk).nTime : Int) - 6400)) ≤
        mainParams.nPowTargetTimespan * 4 ∧
      min mainParams.powLimit
          (setCompactValue (⟨161, 10000, 0x1d1fffff⟩ : Blk).nBits *
            (min (mainParams.nPowTargetTimespan * 4)
              (max (mainParams.nPowTargetTimespan / 4)
                (((⟨161, 10000, 0x1d1fffff⟩ : Blk).nTime : Int) - 6400))).toNat /
              mainParams.nPowTargetTimespan.toNat) ≤ mainParams.powLimit ∧
      setCompactValue (CalculateNextWorkRequired_V1 ⟨161, 10000, 0x1d1fffff⟩ 6400 mainParams) ≤
        mainParams.powLimit) :=
  ⟨by decide, by decide,
    calculateNextWorkRequired_V1_spec ⟨161, 10000, 0x1d1fffff⟩ 6400 mainParams
      (by decide) (by decide)⟩

/-- **C9.** `KimotoGravityWell` always returns normally (`some`): a missing
predecessor mid-walk is a defined early-termination branch, and the
assertions guarding the two `break` statements hold because the walk only
runs on a non-null `BlockReading` pointer. -/
theorem kimotoGravityWell_never_aborts (tr : KGWRatioTest)
    (pindexLast : Option (Blk × List Blk)) (pblock : Option HeaderArg)
    (spacing minW maxW : Nat) (params : ConsensusParams) :
    (KimotoGravityWell tr pindexLast pblock spacing minW maxW params).isSome = true := by
  rcases pindexLast with _ | ⟨tip, rest⟩
  · rfl
  · by_cases h : tip.nHeight = 0 ∨ u64OfInt tip.nHeight < minW
    · simp only [KimotoGravityWell, h, if_true]
      rfl
    · have hs := kgwLoopGo_isSome tr spacing minW maxW (tip.nTime : Int) rest tip 1 ⟨0, 0, 0, 0⟩
      simp only [KimotoGravityWell, kgwLoop, h, if_false]
      rcases hk : kgwLoopGo tr spacing minW maxW (tip.nTime : Int) tip rest 1 ⟨0, 0, 0, 0⟩
        with _ | st
      · rw [hk] at hs
        exact absurd hs (by simp)
      · rfl

/-- **C5.** On a null tip, a genesis tip, or a tip whose height is below
`PastBlocksMin`, `KimotoGravityWell` returns `powLimit` encoded compact,
whatever the other fields of the chain, the header argument and the window
parameters are.  (`nHeight` is a C `int`, so its value is below `2^31`.) -/
theorem kimotoGravityWell_bootstrap (tr : KGWRatioTest)
    (pindexLast : Option (Blk × List Blk)) (pblock : Option HeaderArg)
    (spacing minW maxW : Nat) (params : ConsensusParams)
    (h : pindexLast = none ∨ ∃ tip rest, pindexLast = some (tip, rest) ∧
      tip.nHeight < 2 ^ 31 ∧
      (tip.nHeight = 0 ∨ (0 ≤ tip.nHeight ∧ tip.nHeight < (minW : Int)))) :
    KimotoGravityWell tr pindexLast pblock spacing minW maxW params =
      some (getCompact params.powLimit) := by
  rcases h with h | ⟨tip, rest, rfl, hlt, hcase⟩
  · subst h; rfl
  · have hcond : tip.nHeight = 0 ∨ u64OfInt tip.nHeight < minW := by
      rcases hcase with h0 | ⟨hge, hmin⟩
      · exact Or.inl h0
      · right
        unfold u64OfInt
        have hcast : ((2 ^ 31 : Int)) < (((2 : Nat) ^ 64 : Nat) : Int) := by norm_num
        have h1 : tip.nHeight % (((2 : Nat) ^ 64 : Nat) : Int) = tip.nHeight :=
          Int.emod_eq_of_lt hge (lt_trans hlt hcast)
        rw [h1]
        omega
    simp only [KimotoGravityWell, hcond, if_true]

/-- Witness for C5 at height 5 with `PastBlocksMin = 144`. -/
theorem kimotoGravityWell_bootstrap_witness :
    ((some (⟨5, 77, 0x12345678⟩, []) : Option (Blk × List Blk)) = none ∨
      ∃ tip rest, (some (⟨5, 77, 0x12345678⟩, []) : Option (Blk × List Blk)) =
          some (tip, rest) ∧ tip.nHeight < 2 ^ 31 ∧
        (tip.nHeight = 0 ∨ (0 ≤ tip.nHeight ∧ tip.nHeight < ((144 : Nat) : Int)))) ∧
    KimotoGravityWell (fun _ _ _ => false) (some (⟨5, 77, 0x12345678⟩, [])) none 79 144 4032
        mainParams =
      some (getCompact mainParams.powLimit) :=
  ⟨Or.inr ⟨⟨5, 77, 0x12345678⟩, [], rfl, by decide, Or.inr ⟨by decide, by decide⟩⟩,
    kimotoGravityWell_bootstrap (fun _ _ _ => false) (some (⟨5, 77, 0x12345678⟩, [])) none
      79 144 4032 mainParams
      (Or.inr ⟨⟨5, 77, 0x12345678⟩, [], rfl, by decide, Or.inr ⟨by decide, by decide⟩⟩)⟩

/-- **C3 (amended: `PastBlocksMax > 0`).** When the window bound is
positive, the walk started as `KimotoGravityWell` starts it (counter 1,
mass 0) never samples more than `PastBlocksMax` blocks, for every chain and
every deviation test. -/
theorem kgw_walk_bounded (tr : KGWRatioTest) (spacing minW maxW : Nat) (lastTime : Int)
    (reading : Option (Blk × List Blk)) (st' : KGWState)
    (hmax : 0 < maxW)
    (hrun : kgwLoop tr spacing minW maxW lastTime reading 1 ⟨0, 0, 0, 0⟩ = some st') :
    st'.mass ≤ maxW := by
  rcases reading with _ | ⟨blk, rest⟩
  · simp only [kgwLoop, Option.some.injEq] at hrun
    subst hrun
    exact Nat.zero_le _
  · have h := kgwLoopGo_mass_le tr spacing minW maxW lastTime rest blk 1 ⟨0, 0, 0, 0⟩ st'
      hmax (by simpa [kgwLoop] using hrun)
    simpa using h

/-- **C3 counterexample.** With `PastBlocksMax = 0` the bound of the claim
fails: the guard `PastBlocksMax > 0 &&` (pow.cpp line 79) disables the
window check, and a single iteration already gives
`PastBlocksMass = 1 > 0 = PastBlocksMax`. -/
theorem kgw_walk_bounded_counterexample :
    Option.map KGWState.mass
      (kgwLoop (fun _ _ _ => false) 79 0 0 100 (some (⟨1, 0, 0⟩, [])) 1 ⟨0, 0, 0, 0⟩) =
        some 1 ∧ ¬(1 ≤ 0) := by
  decide

/-- Witness for the amended C3 bound on a three-block chain with
`PastBlocksMax = 2`: the walk stops after two samples. -/
theorem kgw_walk_bounded_witness :
    0 < 2 ∧
    kgwLoop (fun _ _ _ => false) 79 0 2 100
        (some (⟨3, 0, 0⟩, [⟨2, 0, 0⟩, ⟨1, 0, 0⟩])) 1 ⟨0, 0, 0, 0⟩ =
      some ⟨2, 0, 100, 158⟩ ∧
    (⟨2, 0, 100, 158⟩ : KGWState).mass ≤ 2 :=
  ⟨by decide, by decide,
    kgw_walk_bounded (fun _ _ _ => false) 79 0 2 100
      (some (⟨3, 0, 0⟩, [⟨2, 0, 0⟩, ⟨1, 0, 0⟩])) ⟨2, 0, 100, 158⟩ (by decide) (by decide)⟩

/-- **C4.** Once the sampled mass has reached `PastBlocksMin`, an iteration
whose deviation test fires is the last one: the walk returns that
iteration's state at once, whatever ancestors remain in the chain. -/
theorem kgw_earlyExit (tr : KGWRatioTest) (spacing minW maxW : Nat) (lastTime : Int)
    (blk : Blk) (rest : List Blk) (i : Nat) (st : KGWState)
    (hh : 0 < blk.nHeight) (hmax : ¬(0 < maxW ∧ maxW < i))
    (hmin : (kgwNextState spacing lastTime blk i st).mass ≥ minW)
    (htr : tr (kgwNextState spacing lastTime blk i st).mass
      (kgwNextState spacing lastTime blk i st).actual
      (kgwNextState spacing lastTime blk i st).target = true) :
    kgwLoopGo tr spacing minW maxW lastTime blk rest i st =
      some (kgwNextState spacing lastTime blk i st) := by
  rw [kgwLoopGo.eq_def]
  dsimp only
  rw [if_neg (by omega : ¬blk.nHeight ≤ 0), if_neg hmax, if_pos ⟨hmin, htr⟩]
  rfl

/-- Witness for C4: with `PastBlocksMin = 1` and a test firing at mass 1,
the walk stops at the first sample although an ancestor remains. -/
theorem kgw_earlyExit_witness :
    0 < (⟨5, 0, 0x1d00ffff⟩ : Blk).nHeight ∧ ¬(0 < 10 ∧ 10 < 1) ∧
    (kgwNextState 79 100 ⟨5, 0, 0x1d00ffff⟩ 1 ⟨0, 0, 0, 0⟩).mass ≥ 1 ∧
    (fun (m : Nat) (_ _ : Int) => decide (1 ≤ m))
        (kgwNextState 79 100 ⟨5, 0, 0x1d00ffff⟩ 1 ⟨0, 0, 0, 0⟩).mass
        (kgwNextState 79 100 ⟨5, 0, 0x1d00ffff⟩ 1 ⟨0, 0, 0, 0⟩).actual
        (kgwNextState 79 100 ⟨5, 0, 0x1d00ffff⟩ 1 ⟨0, 0, 0, 0⟩).target = true ∧
    kgwLoopGo (fun m _ _ => decide (1 ≤ m)) 79 1 10 100 ⟨5, 0, 0x1d00ffff⟩ [⟨4, 0, 0⟩] 1
        ⟨0, 0, 0, 0⟩ =
      some (kgwNextState 79 100 ⟨5, 0, 0x1d00ffff⟩ 1 ⟨0, 0, 0, 0⟩) :=
  ⟨by decide, by decide, by decide, by decide,
    kgw_earlyExit (fun m _ _ => decide (1 ≤ m)) 79 1 10 100 ⟨5, 0, 0x1d00ffff⟩ [⟨4, 0, 0⟩] 1
      ⟨0, 0, 0, 0⟩ (by decide) (by decide) (by decide) (by decide)⟩

/-- **C6.** For iterations `i ≥ 2` with in-range operands, the incremental
update equals the exact integer formula `prev ± |d - prev| / i`: each
256-bit subtraction it performs has its minuend at least its subtrahend
(so the unsigned subtraction is exact, no wrap), and each division is by
the positive counter `i`. -/
theorem avgUpdate_spec (i d prev : Nat) (hi : 2 ≤ i) (hd : d < two256) (hp : prev < two256) :
    (avgUpdate i d prev =
      if prev ≤ d then prev + (d - prev) / i else prev - (prev - d) / i) ∧
    (prev ≤ d → sub256 d prev = d - prev) ∧
    (¬prev ≤ d → sub256 prev d = prev - d ∧ (prev - d) / i ≤ prev ∧
      sub256 prev ((prev - d) / i) = prev - (prev - d) / i) ∧
    0 < i := by
  by_cases hpd : prev ≤ d
  · have hsub : sub256 d prev = d - prev := sub256_exact d prev hpd hd
    have hdivle : (d - prev) / i ≤ d - prev := Nat.div_le_self _ _
    have hupd : avgUpdate i d prev = prev + (d - prev) / i := by
      unfold avgUpdate add256
      rw [if_pos hpd, hsub]
      have hlt : (d - prev) / i + prev < two256 := by
        unfold two256 at *
        omega
      rw [Nat.mod_eq_of_lt hlt]
      omega
    refine ⟨?_, fun _ => hsub, fun hc => absurd hpd hc, by omega⟩
    rw [hupd, if_pos hpd]
  · have hdp : d ≤ prev := le_of_not_le hpd
    have hsub : sub256 prev d = prev - d := sub256_exact prev d hdp hp
    have hdivle : (prev - d) / i ≤ prev - d := Nat.div_le_self _ _
    have hqle : (prev - d) / i ≤ prev := le_trans hdivle (Nat.sub_le _ _)
    have hsub2 : sub256 prev ((prev - d) / i) = prev - (prev - d) / i :=
      sub256_exact prev _ hqle hp
    have hupd : avgUpdate i d prev = prev - (prev - d) / i := by
      unfold avgUpdate
      rw [if_neg hpd, hsub, hsub2]
    refine ⟨?_, fun hc => absurd hc hpd, fun _ => ⟨hsub, hqle, hsub2⟩, by omega⟩
    rw [hupd, if_neg hpd]

/-- Witness for C6 at `i = 2`, `d = 10`, `prev = 4`. -/
theorem avgUpdate_spec_witness :
    2 ≤ 2 ∧ 10 < two256 ∧ 4 < two256 ∧
    ((avgUpdate 2 10 4 =
        if 4 ≤ 10 then 4 + (10 - 4) / 2 else 4 - (4 - 10) / 2) ∧
      (4 ≤ 10 → sub256 10 4 = 10 - 4) ∧
      (¬(4 ≤ 10) → sub256 4 10 = 4 - 10 ∧ (4 - 10) / 2 ≤ 4 ∧
        sub256 4 ((4 - 10) / 2) = 4 - (4 - 10) / 2) ∧
      0 < 2) :=
  ⟨by decide, by norm_num [two256], by norm_num [two256],
    avgUpdate_spec 2 10 4 (by decide) (by norm_num [two256]) (by norm_num [two256])⟩

/-- **C2.** For a tip passing the bootstrap check, the returned value is the
compact encoding of `min(newTarget, powLimit)`: `newTarget` is the final
average scaled by `actualSeconds / targetSeconds` (multiply before divide,
on the 256-bit magnitude) when the last completed iteration left
`PastRateActualSeconds` and `PastRateTargetSeconds` both nonzero, and the
final average unchanged otherwise. -/
theorem kimotoGravityWell_postLoop (tr : KGWRatioTest) (pblock : Option HeaderArg)
    (spacing minW maxW : Nat) (params : ConsensusParams) (tip : Blk) (rest : List Blk)
    (hboot : ¬(tip.nHeight = 0 ∨ u64OfInt tip.nHeight < minW)) (st : KGWState)
    (hloop : kgwLoop tr spacing minW maxW (tip.nTime : Int) (some (tip, rest)) 1
      ⟨0, 0, 0, 0⟩ = some st) :
    KimotoGravityWell tr (some (tip, rest)) pblock spacing minW maxW params =
      some (getCompact (min params.powLimit
        (if st.actual ≠ 0 ∧ st.target ≠ 0 then
          st.avg * u64OfInt st.actual / u64OfInt st.target
        else st.avg))) := by
  simp only [KimotoGravityWell, hboot, if_false]
  rw [hloop]
  dsimp only
  rw [ifGtMin]

/-- Witness for C2: a two-block chain with distinct block times; the loop
leaves `actual = 50`, `target = 158`, so the scaled branch is taken. -/
theorem kimotoGravityWell_postLoop_witness :
    ¬((⟨5, 100, 0x1d00ffff⟩ : Blk).nHeight = 0 ∨
        u64OfInt (⟨5, 100, 0x1d00ffff⟩ : Blk).nHeight < 2) ∧
    kgwLoop (fun _ _ _ => false) 79 2 10 ((⟨5, 100, 0x1d00ffff⟩ : Blk).nTime : Int)
        (some (⟨5, 100, 0x1d00ffff⟩, [⟨4, 50, 0x1d00ffff⟩])) 1 ⟨0, 0, 0, 0⟩ =
      some ⟨2, 26959535291011309493156476344723991336010898738574164086137773096960, 50, 158⟩ ∧
    KimotoGravityWell (fun _ _ _ => false)
        (some (⟨5, 100, 0x1d00ffff⟩, [⟨4, 50, 0x1d00ffff⟩])) none 79 2 10 mainParams =
      some (getCompact (min mainParams.powLimit
        (if (50 : Int) ≠ 0 ∧ (158 : Int) ≠ 0 then
          26959535291011309493156476344723991336010898738574164086137773096960 *
            u64OfInt 50 / u64OfInt 158
        else 26959535291011309493156476344723991336010898738574164086137773096960))) :=
  ⟨by decide, by decide,
    kimotoGravityWell_postLoop (fun _ _ _ => false) none 79 2 10 mainParams
      ⟨5, 100, 0x1d00ffff⟩ [⟨4, 50, 0x1d00ffff⟩] (by decide)
      ⟨2, 26959535291011309493156476344723991336010898738574164086137773096960, 50, 158⟩
      (by decide)⟩

/-- **C8.** At tip height 160 the dispatcher returns the compact encoding
of the fixed constant
`0x0000001fffffffffffffffffffffffffffffffffffffffffffffffffffffffff`
(that encoding being `0x1d1fffff`), independent of every other field of the
tip, of the header argument, of the parameters and of the chain history. -/
theorem getNextWorkRequired_height160 (tr : KGWRatioTest) (tipChain : Blk × List Blk)
    (pblock : Option HeaderArg) (params : ConsensusParams)
    (h : tipChain.1.nHeight = 160) :
    GetNextWorkRequired tr tipChain pblock params = some (getCompact bnStartDifficulty) ∧
    getCompact bnStartDifficulty = 0x1d1fffff := by
  refine ⟨?_, by decide⟩
  unfold GetNextWorkRequired
  rw [if_pos h]

/-- Witness for C8 at a concrete tip of height 160 with arbitrary other
fields. -/
theorem getNextWorkRequired_height160_witness :
    ((⟨160, 5, 7⟩, [⟨1, 1, 1⟩]) : Blk × List Blk).1.nHeight = 160 ∧
    (GetNextWorkRequired (fun _ _ _ => true) (⟨160, 5, 7⟩, [⟨1, 1, 1⟩])
        (some ⟨9, 9⟩) mainParams = some (getCompact bnStartDifficulty) ∧
      getCompact bnStartDifficulty = 0x1d1fffff) :=
  ⟨by decide,
    getNextWorkRequired_height160 (fun _ _ _ => true) (⟨160, 5, 7⟩, [⟨1, 1, 1⟩])
      (some ⟨9, 9⟩) mainParams (by decide)⟩

/-- **C10.** Neither `KimotoGravityWell` nor (away from the fixed height
160) `GetNextWorkRequired` depends on the `pblock` header argument: two
calls differing only in it return the same value.  The function bodies
never read the argument, so the results are definitionally equal. -/
theorem kgw_pblock_independent (tr : KGWRatioTest) (pindexLast : Option (Blk × List Blk))
    (pb1 pb2 : Option HeaderArg) (spacing minW maxW : Nat) (params : ConsensusParams)
    (tipChain : Blk × List Blk) (h : tipChain.1.nHeight ≠ 160) :
    KimotoGravityWell tr pindexLast pb1 spacing minW maxW params =
      KimotoGravityWell tr pindexLast pb2 spacing minW maxW params ∧
    GetNextWorkRequired tr tipChain pb1 params = GetNextWorkRequired tr tipChain pb2 params :=
  ⟨rfl, rfl⟩

/-- Witness for C10 at height 5 with two different header arguments. -/
theorem kgw_pblock_independent_witness :
    ((⟨5, 0, 0⟩, []) : Blk × List Blk).1.nHeight ≠ 160 ∧
    (KimotoGravityWell (fun _ _ _ => false) none none 0 0 0 mainParams =
        KimotoGravityWell (fun _ _ _ => false) none (some ⟨1, 2⟩) 0 0 0 mainParams ∧
      GetNextWorkRequired (fun _ _ _ => false) (⟨5, 0, 0⟩, []) none mainParams =
        GetNextWorkRequired (fun _ _ _ => false) (⟨5, 0, 0⟩, []) (some ⟨1, 2⟩) mainParams) :=
  ⟨by decide,
    kgw_pblock_independent (fun _ _ _ => false) none none (some ⟨1, 2⟩) 0 0 0 mainParams
      (⟨5, 0, 0⟩, []) (by decide)⟩
